import Mathlib

/-!
Verification development for the excerpted Outline backend sources: the
byte-formatting helper (src/shared/utils/files.ts), the Slack OAuth
integration router (src/unnamed/part_000, second half), and the team /
account provisioning logic described in spec.md and exercised by the
teamCreator test suite (src/unnamed/part_000, first half).

Machine numbers are modelled as `Nat` (all inputs in scope are non-negative
integers); fallible code returns `Option` or `Except`.
-/

/-! ### Decimal rendering of a non-negative integer -/

/-- Digit production of JavaScript `Number.prototype.toString()` for a
non-negative integer: `toDecimalAux fuel n` is the base-10 digit list of `n`,
most significant digit first, empty for `n = 0`.  Any `fuel ≥ n` provides
enough recursion depth. -/
def toDecimalAux : Nat → Nat → List Char
  | 0, _ => []
  | fuel+1, n =>
    if n = 0 then []
    else toDecimalAux fuel (n / 10) ++ [Nat.digitChar (n % 10)]

/-- The exact decimal rendering of a non-negative integer, as a digit list,
with the single digit `0` for zero.  It agrees with JavaScript
`Number.prototype.toString()` on every integer below 2^53 (a double is
exact there, and values below 1e21 print in plain decimal); doubles from
1e21 upward print in exponential notation instead, so claims ranging over
all inputs are stated over an abstract rendering — see `formatBytes`. -/
def jsToString (n : Nat) : List Char :=
  if n = 0 then ['0'] else toDecimalAux n n

/-- JavaScript decimal rendering of a non-negative integer, as a string. -/
def decRepr (n : Nat) : String :=
  String.mk (jsToString n)

/-- Numeric value of a base-10 digit list (the effect of JavaScript
`Number(...)` on a string of decimal digits). -/
def valDigits (l : List Char) : Nat :=
  l.foldl (fun a c => a * 10 + (c.toNat - 48)) 0

/-! ### bytesToHumanReadable (src/shared/utils/files.ts, lines 7-21) -/

/-- The global regex match `.match(/.{3}/g)` on a digit string: successive
non-overlapping groups of exactly three characters, any shorter remainder
dropped; the JavaScript call returns `null` exactly when the result here is
the empty list. -/
def chunks3 : List Char → List (List Char)
  | [] => []
  | [_] => []
  | [_, _] => []
  | a :: b :: c :: rest => [a, b, c] :: chunks3 rest

/-- The padded string `"0".repeat((bytes.toString().length * 2) % 3) + bytes`
from `bytesToHumanReadable`. -/
def paddedDigits (bytes : Nat) : List Char :=
  List.replicate ((jsToString bytes).length * 2 % 3) '0' ++ jsToString bytes

/-- The `out` value of `bytesToHumanReadable`:
`("0".repeat((bytes.toString().length * 2) % 3) + bytes).match(/.{3}/g)`. -/
def outGroups (bytes : Nat) : List (List Char) :=
  chunks3 (paddedDigits bytes)

/-- The unit lookup string `"  kMGTPEZY"` of `bytesToHumanReadable`. -/
def unitChars : String := "  kMGTPEZY"

/-- JavaScript string indexing `s[i]` as it occurs inside a template
literal: the one-character string at index `i`, or the text `"undefined"`
when the index is out of bounds (an out-of-bounds access yields the value
`undefined`, which a template literal renders as that text). -/
def jsCharAt (s : String) (i : Nat) : String :=
  if h : i < s.data.length then String.mk [s.data.get ⟨i, h⟩]
  else "undefined"

/-- `bytesToHumanReadable` from src/shared/utils/files.ts, lines 7-21.
Returns `none` exactly when the JavaScript code would throw: `out[1]` is
`undefined` when `out` has fewer than two groups, and
`undefined.substring(0, 2)` raises a TypeError.  All other paths return the
produced string. -/
def bytesToHumanReadable (bytes : Nat) : Option String :=
  if outGroups bytes = [] ∨ bytes < 1000 then
    some (String.mk (jsToString bytes) ++ " Bytes")
  else
    match outGroups bytes with
    | g0 :: g1 :: _ =>
      some (String.mk (jsToString (valDigits g0)) ++
        (if String.mk (g1.take 2) = "00" then "" else "." ++ String.mk (g1.take 2)) ++
        " " ++ jsCharAt unitChars (outGroups bytes).length ++ "B")
    | _ => none

/-- The padded string `"0".repeat((s.length * 2) % 3) + s` for an arbitrary
rendered numeral `s`: the rendering of `bytes` is abstracted here so that
the exponential notation JavaScript uses from 1e21 upward is covered as
well; `paddedDigits bytes = paddedChars (jsToString bytes)` by definition. -/
def paddedChars (s : List Char) : List Char :=
  List.replicate (s.length * 2 % 3) '0' ++ s

/-- The `out` groups of `bytesToHumanReadable` for an arbitrary rendered
numeral; `outGroups bytes = outGroupsOf (jsToString bytes)` by definition. -/
def outGroupsOf (s : List Char) : List (List Char) :=
  chunks3 (paddedChars s)

/-- `bytesToHumanReadable` with the numeral rendering abstracted: `s` stands
for the JavaScript string `bytes.toString()`, everything else is as in the
source, so `bytesToHumanReadable bytes = formatBytes (jsToString bytes)
bytes` holds by definition.  (When a group `g0` holds non-digit characters,
JavaScript's `Number(out[0])` is NaN; the numeric value is irrelevant to the
totality and indexing claims stated about this function, which never throws
on a group list with two or more groups.) -/
def formatBytes (s : List Char) (bytes : Nat) : Option String :=
  if outGroupsOf s = [] ∨ bytes < 1000 then
    some (String.mk s ++ " Bytes")
  else
    match outGroupsOf s with
    | g0 :: g1 :: _ =>
      some (String.mk (jsToString (valDigits g0)) ++
        (if String.mk (g1.take 2) = "00" then "" else "." ++ String.mk (g1.take 2)) ++
        " " ++ jsCharAt unitChars (outGroupsOf s).length ++ "B")
    | _ => none

/-! ### Slack OAuth router (src/unnamed/part_000, lines 320-380) -/

/-- JavaScript truthiness of an optional query-string parameter: absent
(`undefined`) and the empty string are falsy, every other string is truthy. -/
def jsTruthy : Option String → Bool
  | none => false
  | some s => decide (s ≠ "")

/-- JavaScript coercion of a query parameter to a string (`String(x)` or
template interpolation): the string itself when present, `"undefined"` for
an absent value. -/
def jsParamString : Option String → String
  | some s => s
  | none => "undefined"

/-- A row of the Team table as seen by the slack.commands handler:
`Team.findByPk(state)` and `team.url`. -/
structure SlackTeam where
  id : String
  url : String
deriving DecidableEq

/-- The authenticated user of `ctx.state`, when a session exists. -/
structure SlackUser where
  id : String
  teamId : String
deriving DecidableEq

/-- The incoming request of the slack.commands route: query parameters
`code`, `state`, `error`, plus `ctx.request.path` and
`ctx.request.querystring`. -/
structure SlackRequest where
  code : Option String
  state : Option String
  error : Option String
  path : String
  querystring : String
deriving DecidableEq

/-- The response of the Slack OAuth access exchange `Slack.oauthAccess`,
restricted to the fields the slack.commands handler reads. -/
structure OauthData where
  accessToken : String
  scope : String
  teamId : String
deriving DecidableEq

/-- An IntegrationAuthentication row created by the handler. -/
structure IntegrationAuthenticationRec where
  service : String
  userId : String
  teamId : String
  token : String
  scopes : List String
deriving DecidableEq

/-- An Integration row created by the handler. -/
structure IntegrationRec where
  service : String
  itype : String
  userId : String
  teamId : String
  serviceTeamId : String
deriving DecidableEq

/-- What the handler does with the HTTP exchange: either a redirect, or a
thrown validation failure (`assertPresent`).  Modelled from the spec: the
`assertPresent` helper of `@server/validation` is not in the excerpt; per the
spec it throws a `ValidationError` when the required value is absent. -/
inductive SlackResponse
  | redirect (url : String)
  | validationFailure (msg : String)
deriving DecidableEq

/-- Everything observable about one run of the slack.commands handler: the
response plus every IntegrationAuthentication / Integration row created. -/
structure CommandsOutcome where
  response : SlackResponse
  authsCreated : List IntegrationAuthenticationRec
  integrationsCreated : List IntegrationRec
deriving DecidableEq

/-- The slack.commands GET handler (src/unnamed/part_000, lines 320-380).
`teams` is the Team table, `user` the optional session user, `oauth` the
external `Slack.oauthAccess` collaborator (a pure oracle from the code
parameter to the token payload). -/
def slackCommands (teams : List SlackTeam) (user : Option SlackUser)
    (oauth : String → OauthData) (req : SlackRequest) : CommandsOutcome :=
  if jsTruthy req.code = false ∧ jsTruthy req.error = false then
    ⟨.validationFailure "code is required", [], []⟩
  else if jsTruthy req.error then
    ⟨.redirect ("/settings/integrations/slack?error=" ++ jsParamString req.error), [], []⟩
  else
    match user with
    | none =>
      if jsTruthy req.state then
        match teams.find? (fun t => decide (t.id = jsParamString req.state)) with
        | some team =>
          ⟨.redirect (team.url ++ "/auth" ++ req.path ++ "?" ++ req.querystring), [], []⟩
        | none =>
          ⟨.redirect "/settings/integrations/slack?error=unauthenticated", [], []⟩
      else
        ⟨.redirect "/settings/integrations/slack?error=unauthenticated", [], []⟩
    | some u =>
      let data := oauth (jsParamString req.code)
      ⟨.redirect "/settings/integrations/slack",
       [⟨"slack", u.id, u.teamId, data.accessToken, data.scope.split (fun c => c = ',')⟩],
       [⟨"slack", "command", u.id, u.teamId, data.teamId⟩]⟩

/-- Modelled from the spec: the error-handling middleware that surfaces a
handler outcome to the HTTP layer is not in the excerpt.  Per the spec
(section 7), a validation failure raised before a session exists is surfaced
as a redirect to the integration settings page carrying an error query
parameter, never as a 5xx response; a redirect passes through unchanged. -/
def surfaceResponse : SlackResponse → String
  | .redirect u => u
  | .validationFailure _ => "/settings/integrations/slack?error=" ++ "validation"

/-! ### Team / account provisioning (modelled from the spec)

The implementation of teamCreator and accountProvisioner is not under src/:
only its test suite (src/unnamed/part_000, lines 1-201) and its caller (the
Slack passport strategy) are.  The definitions below are modelled from the
spec, sections 3 and 4, and are consistent with every expectation of the
test suite. -/

/-- Modelled from the spec: an AuthenticationProvider descriptor, identified
by its (provider-name, provider-account-id) pair. -/
structure AuthProvider where
  name : String
  providerId : String
deriving DecidableEq

/-- Modelled from the spec: a Team row — identifier, display name,
subdomain, avatar URL, attached authentication providers, and the
allow-listed TeamDomain set. -/
structure Team where
  id : Nat
  name : String
  subdomain : String
  avatarUrl : String
  providers : List AuthProvider
  allowedDomains : List String
deriving DecidableEq

/-- Modelled from the spec: a User row, keyed inside a team by the external
identity (here its email), with mutable display fields. -/
structure UserRec where
  id : Nat
  teamId : Nat
  name : String
  email : String
  avatarUrl : String
deriving DecidableEq

/-- Modelled from the spec: the persistence state — Team and User tables
plus a fresh-id counter. -/
structure DB where
  teams : List Team
  users : List UserRec
  nextId : Nat
deriving DecidableEq

/-- Modelled from the spec: the process-wide deployment mode
(`env.DEPLOYMENT`): multi-tenant (hosted) or single-tenant (self-hosted). -/
inductive Deployment
  | hosted
  | selfHosted
deriving DecidableEq

/-- Modelled from the spec: the error taxonomy of team resolution
(section 7). -/
inductive ProvisionError
  | teamCreationDenied
  | domainNotAllowed
deriving DecidableEq

/-- Modelled from the spec: the desired team attributes of a provisioning
call — name, subdomain, avatar, optional login domain. -/
structure TeamInput where
  name : String
  subdomain : String
  avatarUrl : String
  domain : Option String
deriving DecidableEq

/-- Modelled from the spec: the user attributes of a provisioning call. -/
structure UserInput where
  name : String
  email : String
  avatarUrl : String
deriving DecidableEq

/-- Modelled from the spec: the input of accountProvisioner — an optional
context-bound team id, team attributes, user attributes, and the
authentication-provider descriptor. -/
structure ProvisionInput where
  teamId : Option Nat
  team : TeamInput
  user : UserInput
  authenticationProvider : AuthProvider
deriving DecidableEq

/-- Modelled from the spec: the aggregate result of accountProvisioner. -/
structure ProvisionResult where
  team : Team
  user : UserRec
  authenticationProvider : AuthProvider
  isNewTeam : Bool
deriving DecidableEq

/-- The k-th probed subdomain of the Domain Availability Checker: the
desired value itself for `k = 0`, then `desired + "1"`, `desired + "2"`, …
in ascending integer order. -/
def candidate (desired : String) : Nat → String
  | 0 => desired
  | k+1 => desired ++ decRepr (k+1)

/-- Whether some existing team already holds subdomain `s`. -/
def subdomainTaken (teams : List Team) (s : String) : Bool :=
  teams.any (fun t => decide (t.subdomain = s))

/-- The probing loop of the Domain Availability Checker: starting at probe
index `k`, return the first candidate not taken, giving up (`none`) when the
fuel runs out. -/
def probeFrom (taken : String → Bool) (desired : String) : Nat → Nat → Option String
  | 0, _ => none
  | fuel+1, k =>
    if taken (candidate desired k) then probeFrom taken desired fuel (k+1)
    else some (candidate desired k)

/-- Modelled from the spec: `resolveAvailableSubdomain` (section 4.1) — if
`desired` is free return it unchanged, otherwise probe `desired + "1"`,
`desired + "2"`, … returning the first unused value.  The source imposes no
upper bound; with finitely many teams a fuel of `teams.length + 1` probes
always suffices, since the probed candidates are pairwise distinct. -/
def resolveAvailableSubdomain (teams : List Team) (desired : String) : Option String :=
  probeFrom (subdomainTaken teams) desired (teams.length + 1) 0

/-- First team whose allow-listed TeamDomain set contains `dom`. -/
def findByDomain (teams : List Team) (dom : String) : Option Team :=
  teams.find? (fun t => decide (dom ∈ t.allowedDomains))

/-- First team already holding the authentication provider `p` (same
(name, providerId) pair). -/
def findByProvider (teams : List Team) (p : AuthProvider) : Option Team :=
  teams.find? (fun t => decide (p ∈ t.providers))

/-- Modelled from the spec: attaching a provider descriptor to a provider
set — a no-op when the (name, providerId) pair is already present, an append
otherwise (section 4.3, step 2). -/
def attachProvider (ps : List AuthProvider) (p : AuthProvider) : List AuthProvider :=
  if p ∈ ps then ps else ps ++ [p]

/-- The team-table update corresponding to `attachProvider`, applied to the
team with id `tid`. -/
def attachTo (p : AuthProvider) (tid : Nat) (u : Team) : Team :=
  if u.id = tid then { u with providers := attachProvider u.providers p } else u

/-- Persist `attachProvider` for the team with id `tid`. -/
def updateTeamProviders (db : DB) (tid : Nat) (p : AuthProvider) : DB :=
  { db with teams := db.teams.map (attachTo p tid) }

/-- Resolution of an existing team: attach (or find) the provider on the
matched team and report `isNewTeam = false`; the team's own attributes are
left untouched. -/
def resolveExisting (db : DB) (t : Team) (p : AuthProvider) :
    DB × Team × AuthProvider × Bool :=
  (updateTeamProviders db t.id p, attachTo p t.id t, p, false)

/-- Creation of a new team with the given resolved subdomain: name and
avatar verbatim from the input, the provider attached, an empty TeamDomain
set, and `isNewTeam = true`. -/
def createTeam (db : DB) (input : TeamInput) (subdomain : String) (p : AuthProvider) :
    DB × Team × AuthProvider × Bool :=
  (({ db with
      teams := db.teams ++ [⟨db.nextId, input.name, subdomain, input.avatarUrl, [p], []⟩],
      nextId := db.nextId + 1 }),
   ⟨db.nextId, input.name, subdomain, input.avatarUrl, [p], []⟩, p, true)

/-- Modelled from the spec: `teamCreator` (section 4.2) — the Team Resolver.
Single-tenant mode: with no team yet, create the only team from the supplied
attributes; with a team present, a supplied login domain must match an
allow-listed TeamDomain (else `DomainNotAllowed`), and otherwise the
provider pair must match an existing team (else `TeamCreationDenied` — a
second team is never created).  Multi-tenant mode: a matching allow-listed
domain wins, else a matching provider pair, else a new team is created with
the subdomain passed through the Domain Availability Checker. -/
def teamCreator (mode : Deployment) (db : DB) (input : TeamInput) (p : AuthProvider) :
    Except ProvisionError (DB × Team × AuthProvider × Bool) :=
  match mode with
  | .selfHosted =>
    match db.teams with
    | [] => .ok (createTeam db input input.subdomain p)
    | _ :: _ =>
      match input.domain with
      | some dom =>
        match findByDomain db.teams dom with
        | some t => .ok (resolveExisting db t p)
        | none => .error .domainNotAllowed
      | none =>
        match findByProvider db.teams p with
        | some t => .ok (resolveExisting db t p)
        | none => .error .teamCreationDenied
  | .hosted =>
    match input.domain.bind (fun dom => findByDomain db.teams dom) with
    | some t => .ok (resolveExisting db t p)
    | none =>
      match findByProvider db.teams p with
      | some t => .ok (resolveExisting db t p)
      | none =>
        .ok (createTeam db input
          ((resolveAvailableSubdomain db.teams input.subdomain).getD input.subdomain) p)

/-- The user lookup key of the Account Provisioner: (teamId, external
identity), here the email. -/
def userKey (tid : Nat) (email : String) (v : UserRec) : Bool :=
  decide (v.teamId = tid ∧ v.email = email)

/-- The display-field refresh applied to matching users on repeat logins. -/
def userUpd (tid : Nat) (uin : UserInput) (v : UserRec) : UserRec :=
  if v.teamId = tid ∧ v.email = uin.email then
    { v with name := uin.name, avatarUrl := uin.avatarUrl } else v

/-- Find a user of team `tid` by external identity. -/
def findUser (users : List UserRec) (tid : Nat) (email : String) : Option UserRec :=
  users.find? (userKey tid email)

/-- Modelled from the spec: step 3 of the Account Provisioner — find-or-create
the user by (teamId, external identity), updating the mutable display fields
(name, avatar) on repeat logins. -/
def upsertUser (db : DB) (tid : Nat) (uin : UserInput) : DB × UserRec :=
  match findUser db.users tid uin.email with
  | some u0 =>
    ({ db with users := db.users.map (userUpd tid uin) },
     { u0 with name := uin.name, avatarUrl := uin.avatarUrl })
  | none =>
    ({ db with
       users := db.users ++ [⟨db.nextId, tid, uin.name, uin.email, uin.avatarUrl⟩],
       nextId := db.nextId + 1 },
     ⟨db.nextId, tid, uin.name, uin.email, uin.avatarUrl⟩)

/-- Modelled from the spec: team resolution of the Account Provisioner — a
context-bound team id, when supplied and found, resolves that team directly;
otherwise the Team Resolver (`teamCreator`) decides. -/
def resolveTeam (mode : Deployment) (db : DB) (input : ProvisionInput) :
    Except ProvisionError (DB × Team × AuthProvider × Bool) :=
  match input.teamId.bind (fun i => db.teams.find? (fun t => decide (t.id = i))) with
  | some t => .ok (resolveExisting db t input.authenticationProvider)
  | none => teamCreator mode db input.team input.authenticationProvider

/-- Modelled from the spec: `accountProvisioner` (section 4.3) — resolve the
team, attach or find the authentication provider on it, find-or-create the
user, and return the aggregate; any resolution failure aborts the whole
operation with no record created. -/
def accountProvisioner (mode : Deployment) (db : DB) (input : ProvisionInput) :
    Except ProvisionError (DB × ProvisionResult) :=
  match resolveTeam mode db input with
  | .error e => .error e
  | .ok (db1, t, p, isNew) =>
    match upsertUser db1 t.id input.user with
    | (db2, u) => .ok (db2, ⟨t, u, p, isNew⟩)

/-- Well-formedness of the persistence state: team ids are primary keys
(pairwise distinct) and the fresh-id counter is ahead of every stored id. -/
def WellFormedDB (db : DB) : Prop :=
  db.teams.Pairwise (fun a b => a.id ≠ b.id) ∧ ∀ t ∈ db.teams, t.id < db.nextId

/-- Decidable equality for `Except`, component-wise. -/
instance {ε α : Type} [DecidableEq ε] [DecidableEq α] : DecidableEq (Except ε α) := fun x y =>
  match x, y with
  | .error a, .error b =>
    if h : a = b then .isTrue (by rw [h]) else .isFalse (by intro hc; cases hc; exact h rfl)
  | .ok a, .ok b =>
    if h : a = b then .isTrue (by rw [h]) else .isFalse (by intro hc; cases hc; exact h rfl)
  | .error _, .ok _ => .isFalse (by intro hc; cases hc)
  | .ok _, .error _ => .isFalse (by intro hc; cases hc)

/-! ### Generic list lemmas -/

/-- `find?` over a mapped list, when the mapped predicate agrees pointwise. -/
theorem findq_map_of {α : Type} (l : List α) (g : α → α) (p q : α → Bool)
    (h : ∀ a ∈ l, q (g a) = p a) :
    (l.map g).find? q = (l.find? p).map g := by
  induction l with
  | nil => rfl
  | cons a l ih =>
    have ha := h a (by simp)
    cases hpa : p a with
    | true =>
      rw [List.map_cons, List.find?_cons_of_pos _ (by rw [ha, hpa]),
        List.find?_cons_of_pos _ hpa, Option.map_some']
    | false =>
      rw [List.map_cons, List.find?_cons_of_neg _ (by rw [ha, hpa]; simp),
        List.find?_cons_of_neg _ (by rw [hpa]; simp)]
      exact ih (fun b hb => h b (by simp [hb]))

/-- A map that is the identity on every element of the list. -/
theorem map_eq_self_of {α : Type} (l : List α) (g : α → α) (h : ∀ a ∈ l, g a = a) :
    l.map g = l := by
  induction l with
  | nil => rfl
  | cons a l ih =>
    rw [List.map_cons, h a (by simp), ih (fun b hb => h b (by simp [hb]))]

/-- Mapping `f` after an update `g` that `f` cannot observe. -/
theorem map_comp_eq_of {α β : Type} (l : List α) (f : α → β) (g : α → α)
    (h : ∀ a ∈ l, f (g a) = f a) :
    (l.map g).map f = l.map f := by
  induction l with
  | nil => rfl
  | cons a l ih =>
    simp only [List.map_cons]
    rw [h a (by simp), ih (fun b hb => h b (by simp [hb]))]

/-- `find?` skips a prefix in which nothing matches. -/
theorem findq_append_none {α : Type} (l1 l2 : List α) (p : α → Bool)
    (h : l1.find? p = none) : (l1 ++ l2).find? p = l2.find? p := by
  induction l1 with
  | nil => rfl
  | cons a l ih =>
    cases hpa : p a with
    | true => rw [List.find?_cons_of_pos _ hpa] at h; cases h
    | false =>
      rw [List.find?_cons_of_neg _ (by rw [hpa]; simp)] at h
      rw [List.cons_append, List.find?_cons_of_neg _ (by rw [hpa]; simp)]
      exact ih h

/-- `find?` returns the unique matching element. -/
theorem findq_eq_some_of_unique {α : Type} (l : List α) (p : α → Bool) (a : α)
    (ha : a ∈ l) (hpa : p a = true) (huniq : ∀ b ∈ l, p b = true → b = a) :
    l.find? p = some a := by
  induction l with
  | nil => cases ha
  | cons x l ih =>
    cases hpx : p x with
    | true =>
      rw [List.find?_cons_of_pos _ hpx, huniq x (by simp) hpx]
    | false =>
      rw [List.find?_cons_of_neg _ (by rw [hpx]; simp)]
      have ha2 : a ∈ l := by
        rcases List.mem_cons.mp ha with h1 | h1
        · rw [← h1] at hpx; rw [hpa] at hpx; cases hpx
        · exact h1
      exact ih ha2 (fun b hb hpb => huniq b (by simp [hb]) hpb)

/-! ### Length and value of the decimal rendering -/

theorem toDecimalAux_length_le (fuel : Nat) :
    ∀ n k, n < 10 ^ k → (toDecimalAux fuel n).length ≤ k := by
  induction fuel with
  | zero => intro n k _; simp [toDecimalAux]
  | succ fuel ih =>
    intro n k hk
    by_cases h0 : n = 0
    · simp [toDecimalAux, h0]
    · cases k with
      | zero =>
        simp only [pow_zero, Nat.lt_one_iff] at hk
        exact absurd hk h0
      | succ j =>
        have hdiv : n / 10 < 10 ^ j := by
          rw [Nat.div_lt_iff_lt_mul (by omega)]
          calc n < 10 ^ (j + 1) := hk
          _ = 10 ^ j * 10 := by ring
        have hrec := ih (n / 10) j hdiv
        simp only [toDecimalAux, if_neg h0, List.length_append, List.length_cons,
          List.length_nil]
        omega

theorem le_toDecimalAux_length (fuel : Nat) :
    ∀ n k, n ≤ fuel → 10 ^ k ≤ n → k + 1 ≤ (toDecimalAux fuel n).length := by
  induction fuel with
  | zero =>
    intro n k h1 h2
    have h3 : 0 < 10 ^ k := pow_pos (by omega) k
    omega
  | succ fuel ih =>
    intro n k h1 h2
    have h3 : 0 < 10 ^ k := pow_pos (by omega) k
    have hn0 : n ≠ 0 := by omega
    cases k with
    | zero =>
      simp only [toDecimalAux, if_neg hn0, List.length_append, List.length_cons,
        List.length_nil]
      omega
    | succ j =>
      have h2d : 10 ^ j ≤ n / 10 := by
        rw [Nat.le_div_iff_mul_le (by omega)]
        calc 10 ^ j * 10 = 10 ^ (j + 1) := by ring
        _ ≤ n := h2
      have h1d : n / 10 ≤ fuel := by
        have := Nat.div_lt_self (by omega : 0 < n) (by omega : 1 < 10)
        omega
      have hrec := ih (n / 10) j h1d h2d
      simp only [toDecimalAux, if_neg hn0, List.length_append, List.length_cons,
        List.length_nil]
      omega

theorem valDigits_append_digit (l : List Char) (c : Char) :
    valDigits (l ++ [c]) = valDigits l * 10 + (c.toNat - 48) := by
  simp [valDigits, List.foldl_append]

theorem digitChar_val (d : Nat) (hd : d < 10) : (Nat.digitChar d).toNat - 48 = d := by
  interval_cases d <;> decide

theorem valDigits_toDecimalAux (fuel : Nat) :
    ∀ n, n ≤ fuel → valDigits (toDecimalAux fuel n) = n := by
  induction fuel with
  | zero =>
    intro n h1
    have : n = 0 := by omega
    subst this
    rfl
  | succ fuel ih =>
    intro n h1
    by_cases h0 : n = 0
    · subst h0; rfl
    · have h1d : n / 10 ≤ fuel := by
        have := Nat.div_lt_self (by omega : 0 < n) (by omega : 1 < 10)
        omega
      have hd : n % 10 < 10 := Nat.mod_lt _ (by omega)
      simp only [toDecimalAux, if_neg h0]
      rw [valDigits_append_digit, ih (n / 10) h1d, digitChar_val _ hd]
      omega

theorem valDigits_jsToString (n : Nat) : valDigits (jsToString n) = n := by
  by_cases h : n = 0
  · subst h; decide
  · simp only [jsToString, if_neg h]
    exact valDigits_toDecimalAux n n (le_refl n)

theorem jsToString_length_pos (n : Nat) : 1 ≤ (jsToString n).length := by
  by_cases h : n = 0
  · subst h; decide
  · simp only [jsToString, if_neg h]
    have := le_toDecimalAux_length n n 0 (le_refl n)
      (by simpa using Nat.one_le_iff_ne_zero.mpr h)
    omega

theorem jsToString_injective : Function.Injective jsToString := by
  intro a b h
  calc a = valDigits (jsToString a) := (valDigits_jsToString a).symm
  _ = valDigits (jsToString b) := by rw [h]
  _ = b := valDigits_jsToString b

/-! ### chunks3 -/

theorem chunks3_length : ∀ l : List Char, (chunks3 l).length = l.length / 3
  | [] => rfl
  | [_] => by simp [chunks3]
  | [_, _] => by simp [chunks3]
  | a :: b :: c :: rest => by
    have ih := chunks3_length rest
    simp only [chunks3, List.length_cons]
    omega

/-! ### Claims C8 and C9 -/

/-- C8: for every non-negative integer `bytes < 1000`, `bytesToHumanReadable`
returns exactly the decimal representation of `bytes` followed by ` Bytes`. -/
theorem claim8 (bytes : Nat) (h : bytes < 1000) :
    bytesToHumanReadable bytes = some (String.mk (jsToString bytes) ++ " Bytes") := by
  unfold bytesToHumanReadable
  rw [if_pos (Or.inr h)]

theorem claim8_witness :
    bytesToHumanReadable 0 = some "0 Bytes" ∧ bytesToHumanReadable 999 = some "999 Bytes" := by
  constructor
  · rw [claim8 0 (by decide)]; decide
  · rw [claim8 999 (by decide)]; decide

/-- The in-file concrete function is the rendering-abstracted one applied to
the exact decimal rendering. -/
theorem bytesToHumanReadable_eq_formatBytes (bytes : Nat) :
    bytesToHumanReadable bytes = formatBytes (jsToString bytes) bytes := rfl

theorem outGroups_eq_outGroupsOf (bytes : Nat) :
    outGroups bytes = outGroupsOf (jsToString bytes) := rfl

/-- C9: JavaScript renders a non-negative number with at least one and at
most 24 characters — plain decimal below 1e21 (hence at least four
characters once the value is at least 1000), exponential notation such as
`1.2345678901234567e+308` from 1e21 upward — and for every rendered string
inside that envelope all of `bytesToHumanReadable`'s index accesses are
safe: the zero-padding of `(2 * length) % 3` characters always makes the
padded length a multiple of three, so the three-character grouping is never
null; for `bytes ≥ 1000` the grouping yields at least two groups, so
reading `out[1]` is safe; the unit-string lookup `"  kMGTPEZY"[out.length]`
stays in bounds; and the function is total.  The second part instantiates
this for the in-file exact-decimal rendering on every `bytes < 10^21`,
which contains the whole regime where a double holds an integer exactly. -/
theorem claim9 :
    (∀ (bytes : Nat) (s : List Char), 1 ≤ s.length → s.length ≤ 27 →
      (1000 ≤ bytes → 4 ≤ s.length) →
      (paddedChars s).length % 3 = 0 ∧
      outGroupsOf s ≠ [] ∧
      (1000 ≤ bytes → 2 ≤ (outGroupsOf s).length) ∧
      (formatBytes s bytes).isSome = true ∧
      (outGroupsOf s).length < unitChars.length) ∧
    (∀ bytes : Nat, bytes < 10 ^ 21 →
      (bytesToHumanReadable bytes).isSome = true ∧
      (outGroups bytes).length < unitChars.length) := by
  have main : ∀ (bytes : Nat) (s : List Char), 1 ≤ s.length → s.length ≤ 27 →
      (1000 ≤ bytes → 4 ≤ s.length) →
      (paddedChars s).length % 3 = 0 ∧
      outGroupsOf s ≠ [] ∧
      (1000 ≤ bytes → 2 ≤ (outGroupsOf s).length) ∧
      (formatBytes s bytes).isSome = true ∧
      (outGroupsOf s).length < unitChars.length := by
    intro bytes s hL1 hL27 hBigLen
    have hPad : (paddedChars s).length = s.length * 2 % 3 + s.length := by
      simp [paddedChars, List.length_append, List.length_replicate]
    have hMod : (paddedChars s).length % 3 = 0 := by omega
    have hOut : (outGroupsOf s).length = (paddedChars s).length / 3 := chunks3_length _
    have hOut1 : 1 ≤ (outGroupsOf s).length := by omega
    have hNe : outGroupsOf s ≠ [] := by
      intro hc
      rw [hc] at hOut1
      simp at hOut1
    have hBig : 1000 ≤ bytes → 2 ≤ (outGroupsOf s).length := by
      intro hb
      have h4 := hBigLen hb
      omega
    have hunit : unitChars.length = 10 := by decide
    refine ⟨hMod, hNe, hBig, ?_, by omega⟩
    by_cases hb : bytes < 1000
    · unfold formatBytes
      rw [if_pos (Or.inr hb)]
      rfl
    · have h2 := hBig (by omega)
      cases hg : outGroupsOf s with
      | nil => exact absurd hg hNe
      | cons g0 tl =>
        cases tl with
        | nil => rw [hg] at h2; simp at h2
        | cons g1 tl2 =>
          unfold formatBytes
          rw [if_neg (not_or.mpr ⟨hNe, hb⟩), hg]
          rfl
  refine ⟨main, ?_⟩
  intro bytes hlt
  have hL1 : 1 ≤ (jsToString bytes).length := jsToString_length_pos bytes
  have hL27 : (jsToString bytes).length ≤ 27 := by
    by_cases hb0 : bytes = 0
    · subst hb0; decide
    · have hlt27 : bytes < 10 ^ 27 := by
        calc bytes < 10 ^ 21 := hlt
        _ ≤ 10 ^ 27 := by norm_num
      have := toDecimalAux_length_le bytes bytes 27 hlt27
      simpa [jsToString, hb0] using this
  have hBigLen : 1000 ≤ bytes → 4 ≤ (jsToString bytes).length := by
    intro hb
    have hb0 : bytes ≠ 0 := by omega
    have hpow : (10:ℕ) ^ 3 ≤ bytes := by norm_num; omega
    have h4 := le_toDecimalAux_length bytes bytes 3 (le_refl bytes) hpow
    simpa [jsToString, hb0] using h4
  have h := main bytes (jsToString bytes) hL1 hL27 hBigLen
  exact ⟨h.2.2.2.1, h.2.2.2.2⟩

theorem claim9_witness :
    (formatBytes (jsToString 123456) 123456).isSome = true ∧
    (outGroupsOf (jsToString 123456)).length < unitChars.length ∧
    (bytesToHumanReadable 123456).isSome = true := by
  have h1 := claim9.1 123456 (jsToString 123456) (by decide) (by decide) (by decide)
  have h2 := claim9.2 123456 (by norm_num)
  exact ⟨h1.2.2.2.1, h1.2.2.2.2, h2.1⟩

/-! ### Claims C7 and C10 -/

/-- C7: a callback request in which neither `code` nor `error` is present
fails with the assertPresent validation error, which the (spec-modelled)
middleware surfaces as a redirect carrying an error query parameter, never a
5xx; and before a session exists every outcome of the handler surfaces as a
redirect — either back to the integration settings page carrying an error
indicator, or forwarding the OAuth flow to an existing team's subdomain. -/
theorem claim7 :
    (∀ (teams : List SlackTeam) (user : Option SlackUser) (oauth : String → OauthData)
       (req : SlackRequest), jsTruthy req.code = false → jsTruthy req.error = false →
       (slackCommands teams user oauth req).response = .validationFailure "code is required" ∧
       ∃ e, surfaceResponse (slackCommands teams user oauth req).response =
         "/settings/integrations/slack?error=" ++ e) ∧
    (∀ (teams : List SlackTeam) (oauth : String → OauthData) (req : SlackRequest),
       (∃ e, surfaceResponse (slackCommands teams none oauth req).response =
          "/settings/integrations/slack?error=" ++ e) ∨
       (∃ t, t ∈ teams ∧ surfaceResponse (slackCommands teams none oauth req).response =
          t.url ++ "/auth" ++ req.path ++ "?" ++ req.querystring)) := by
  constructor
  · intro teams user oauth req hc he
    constructor
    · simp [slackCommands, hc, he]
    · exact ⟨"validation", by simp [slackCommands, hc, he, surfaceResponse]⟩
  · intro teams oauth req
    by_cases hval : jsTruthy req.code = false ∧ jsTruthy req.error = false
    · left
      exact ⟨"validation", by simp [slackCommands, hval.1, hval.2, surfaceResponse]⟩
    · by_cases he : jsTruthy req.error = true
      · left
        refine ⟨jsParamString req.error, ?_⟩
        simp [slackCommands, he, surfaceResponse]
      · have he2 : jsTruthy req.error = false := by
          cases h : jsTruthy req.error
          · rfl
          · exact absurd h he
        have hcode : jsTruthy req.code = true := by
          cases h : jsTruthy req.code
          · exact absurd ⟨h, he2⟩ hval
          · rfl
        by_cases hs : jsTruthy req.state = true
        · cases hfound : teams.find? (fun t => decide (t.id = jsParamString req.state)) with
          | some t =>
            right
            refine ⟨t, List.mem_of_find?_eq_some hfound, ?_⟩
            simp [slackCommands, hcode, he2, hs, hfound, surfaceResponse]
          | none =>
            left
            refine ⟨"unauthenticated", ?_⟩
            simp [slackCommands, hcode, he2, hs, hfound, surfaceResponse]
        · left
          refine ⟨"unauthenticated", ?_⟩
          have hs2 : jsTruthy req.state = false := by
            cases h : jsTruthy req.state
            · rfl
            · exact absurd h hs
          simp [slackCommands, hcode, he2, hs2, surfaceResponse]

theorem claim7_witness :
    (slackCommands [] none (fun _ => ⟨"", "", ""⟩)
      ⟨none, none, none, "/auth/slack.commands", ""⟩).response =
      .validationFailure "code is required" :=
  (claim7.1 [] none (fun _ => ⟨"", "", ""⟩)
    ⟨none, none, none, "/auth/slack.commands", ""⟩ rfl rfl).1

/-- C10: in the slack.commands handler, for a request carrying `code`, no
`error`, and no authenticated user: when `state` names an existing team the
response is a redirect to that team's URL concatenated with `/auth`, the
original request path and the original query string, and when `state` is
absent (falsy) or names no team the response is a redirect to
`/settings/integrations/slack?error=unauthenticated`; in neither case is any
IntegrationAuthentication or Integration record created. -/
theorem claim10 (teams : List SlackTeam) (oauth : String → OauthData) (req : SlackRequest)
    (hc : jsTruthy req.code = true) (he : jsTruthy req.error = false) :
    (∀ t, jsTruthy req.state = true →
      teams.find? (fun t2 => decide (t2.id = jsParamString req.state)) = some t →
      slackCommands teams none oauth req =
        ⟨.redirect (t.url ++ "/auth" ++ req.path ++ "?" ++ req.querystring), [], []⟩) ∧
    ((jsTruthy req.state = false ∨
        teams.find? (fun t2 => decide (t2.id = jsParamString req.state)) = none) →
      slackCommands teams none oauth req =
        ⟨.redirect "/settings/integrations/slack?error=unauthenticated", [], []⟩) := by
  have hval : ¬(jsTruthy req.code = false ∧ jsTruthy req.error = false) := by
    intro hcon
    rw [hc] at hcon
    cases hcon.1
  constructor
  · intro t hs hfound
    simp [slackCommands, hc, he, hs, hfound]
  · intro hcase
    rcases hcase with hs | hfound
    · simp [slackCommands, hc, he, hs]
    · by_cases hs : jsTruthy req.state = true
      · simp [slackCommands, hc, he, hs, hfound]
      · have hs2 : jsTruthy req.state = false := by
          cases h : jsTruthy req.state
          · rfl
          · exact absurd h hs
        simp [slackCommands, hc, he, hs2]

theorem claim10_witness :
    slackCommands [⟨"team1", "https://team1.example.com"⟩] none (fun _ => ⟨"", "", ""⟩)
        ⟨some "abc", some "team1", none, "/slack.commands", "code=abc&state=team1"⟩ =
      ⟨.redirect "https://team1.example.com/auth/slack.commands?code=abc&state=team1", [], []⟩ := by
  have h := (claim10 [⟨"team1", "https://team1.example.com"⟩] (fun _ => ⟨"", "", ""⟩)
    ⟨some "abc", some "team1", none, "/slack.commands", "code=abc&state=team1"⟩
    rfl rfl).1 ⟨"team1", "https://team1.example.com"⟩ rfl rfl
  rw [h]
  decide

/-! ### Basic facts about provider attachment and team lookups -/

theorem mem_attachProvider (ps : List AuthProvider) (p : AuthProvider) :
    p ∈ attachProvider ps p := by
  by_cases h : p ∈ ps <;> simp [attachProvider, h]

theorem attachProvider_eq_of_mem {ps : List AuthProvider} {p : AuthProvider}
    (h : p ∈ ps) : attachProvider ps p = ps := by
  simp [attachProvider, h]

theorem attachTo_noop {p : AuthProvider} {tid : Nat} {u : Team}
    (h : u.id = tid → p ∈ u.providers) : attachTo p tid u = u := by
  unfold attachTo
  by_cases hid : u.id = tid
  · rw [if_pos hid, attachProvider_eq_of_mem (h hid)]
  · rw [if_neg hid]

theorem attachTo_id (p : AuthProvider) (tid : Nat) (u : Team) :
    (attachTo p tid u).id = u.id := by
  unfold attachTo; split <;> rfl

theorem attachTo_subdomain (p : AuthProvider) (tid : Nat) (u : Team) :
    (attachTo p tid u).subdomain = u.subdomain := by
  unfold attachTo; split <;> rfl

theorem attachTo_name (p : AuthProvider) (tid : Nat) (u : Team) :
    (attachTo p tid u).name = u.name := by
  unfold attachTo; split <;> rfl

theorem attachTo_allowedDomains (p : AuthProvider) (tid : Nat) (u : Team) :
    (attachTo p tid u).allowedDomains = u.allowedDomains := by
  unfold attachTo; split <;> rfl

theorem attachTo_mem (p : AuthProvider) (tid : Nat) (u : Team) (h : u.id = tid) :
    p ∈ (attachTo p tid u).providers := by
  unfold attachTo
  rw [if_pos h]
  exact mem_attachProvider u.providers p

/-- A no-op resolution: when the provider is already everywhere it would be
attached, resolving an existing team changes nothing. -/
theorem resolveExisting_noop (dbx : DB) (t : Team) (p : AuthProvider)
    (h1 : p ∈ t.providers)
    (h2 : ∀ u ∈ dbx.teams, u.id = t.id → p ∈ u.providers) :
    resolveExisting dbx t p = (dbx, t, p, false) := by
  unfold resolveExisting updateTeamProviders
  rw [map_eq_self_of _ _ (fun u hu => attachTo_noop (fun hid => h2 u hu hid)),
    attachTo_noop (fun _ => h1)]

theorem update_mem_providers (db : DB) (tid : Nat) (p : AuthProvider) :
    ∀ u ∈ (updateTeamProviders db tid p).teams, u.id = tid → p ∈ u.providers := by
  intro u hu hid
  unfold updateTeamProviders at hu
  simp only [List.mem_map] at hu
  obtain ⟨v, hv, rfl⟩ := hu
  have hvid : v.id = tid := by rw [← attachTo_id p tid v]; exact hid
  exact attachTo_mem p tid v hvid

theorem wf_sameId {l : List Team} (hpw : l.Pairwise (fun a b => a.id ≠ b.id))
    {a b : Team} (ha : a ∈ l) (hb : b ∈ l) (h : a.id = b.id) : a = b := by
  by_contra hne
  have hsym : Symmetric (fun a b : Team => a.id ≠ b.id) := fun x y hxy he => hxy he.symm
  exact (List.Pairwise.forall hsym hpw ha hb hne) h

theorem findByProvider_mem_providers {teams : List Team} {p : AuthProvider} {t : Team}
    (h : findByProvider teams p = some t) : p ∈ t.providers := by
  have := List.find?_some h
  simpa using this

theorem findByDomain_mem_allowed {teams : List Team} {dom : String} {t : Team}
    (h : findByDomain teams dom = some t) : dom ∈ t.allowedDomains := by
  have := List.find?_some h
  simpa using this

/-! ### The Domain Availability Checker probe -/

theorem probeFrom_eq_some (taken : String → Bool) (d : String) :
    ∀ (fuel k n : Nat), n < fuel →
      (∀ j, j < n → taken (candidate d (k + j)) = true) →
      taken (candidate d (k + n)) = false →
      probeFrom taken d fuel k = some (candidate d (k + n)) := by
  intro fuel
  induction fuel with
  | zero => intro k n hn _ _; omega
  | succ fuel ih =>
    intro k n hn hall hfree
    cases n with
    | zero =>
      simp only [Nat.add_zero] at hfree
      simp [probeFrom, hfree]
    | succ m =>
      have h0 : taken (candidate d k) = true := by
        have := hall 0 (by omega)
        simpa using this
      simp only [probeFrom, h0, if_true]
      have hall2 : ∀ j, j < m → taken (candidate d (k + 1 + j)) = true := by
        intro j hj
        have heq : k + 1 + j = k + (j + 1) := by omega
        rw [heq]
        exact hall (j + 1) (by omega)
      have hfree2 : taken (candidate d (k + 1 + m)) = false := by
        have heq : k + 1 + m = k + (m + 1) := by omega
        rw [heq]
        exact hfree
      have hres := ih (k + 1) m (by omega) hall2 hfree2
      rw [hres]
      have heq : k + 1 + m = k + (m + 1) := by omega
      rw [heq]

theorem candidate_injective (d : String) : Function.Injective (candidate d) := by
  have hlen : ∀ m : Nat, 1 ≤ (jsToString m).length := jsToString_length_pos
  intro a b h
  match a, b with
  | 0, 0 => rfl
  | 0, k+1 =>
    exfalso
    have hdata : d.data = d.data ++ jsToString (k + 1) := congrArg String.data h
    have hl := congrArg List.length hdata
    rw [List.length_append] at hl
    have := hlen (k + 1)
    omega
  | j+1, 0 =>
    exfalso
    have hdata : d.data ++ jsToString (j + 1) = d.data := congrArg String.data h
    have hl := congrArg List.length hdata
    rw [List.length_append] at hl
    have := hlen (j + 1)
    omega
  | j+1, k+1 =>
    have hdata : d.data ++ jsToString (j + 1) = d.data ++ jsToString (k + 1) :=
      congrArg String.data h
    have h2 : jsToString (j + 1) = jsToString (k + 1) := List.append_cancel_left hdata
    exact jsToString_injective h2

theorem taken_count_le (teams : List Team) (d : String) (n : Nat)
    (h : ∀ k, k < n → subdomainTaken teams (candidate d k) = true) :
    n ≤ teams.length := by
  have hsub : ((List.range n).map (candidate d)) ⊆ teams.map (fun t => t.subdomain) := by
    intro s hs
    simp only [List.mem_map, List.mem_range] at hs
    obtain ⟨k, hk, rfl⟩ := hs
    have htk := h k hk
    simp only [subdomainTaken, List.any_eq_true, decide_eq_true_eq] at htk
    obtain ⟨t, ht, hts⟩ := htk
    exact List.mem_map.mpr ⟨t, ht, hts⟩
  have hnd : ((List.range n).map (candidate d)).Nodup :=
    (List.nodup_range n).map (candidate_injective d)
  have hsp := List.subperm_of_subset hnd hsub
  have hle := hsp.length_le
  simpa using hle

/-! ### Claims C1, C2, C3 -/

/-- C1: when teams already hold the contiguous candidates `d`, `d1`, …,
`d(n-1)` and `d` followed by `n` is free, the Domain Availability Checker
returns `d` followed by the decimal rendering of `n`; and hosted-mode team
creation through `teamCreator` (no domain match, no provider match) creates
a team carrying exactly that subdomain with `isNewTeam = true`. -/
theorem claim1 (teams : List Team) (d : String) (n : Nat) (hn : 0 < n)
    (htaken : ∀ k, k < n → subdomainTaken teams (candidate d k) = true)
    (hfree : subdomainTaken teams (candidate d n) = false) :
    resolveAvailableSubdomain teams d = some (d ++ decRepr n) ∧
    ∀ (db : DB) (input : TeamInput) (p : AuthProvider),
      db.teams = teams → input.subdomain = d → input.domain = none →
      findByProvider teams p = none →
      teamCreator .hosted db input p =
        .ok ({ db with
               teams := db.teams ++
                 [⟨db.nextId, input.name, d ++ decRepr n, input.avatarUrl, [p], []⟩],
               nextId := db.nextId + 1 },
             ⟨db.nextId, input.name, d ++ decRepr n, input.avatarUrl, [p], []⟩, p, true) := by
  have hle : n ≤ teams.length := taken_count_le teams d n htaken
  have hres : resolveAvailableSubdomain teams d = some (candidate d n) := by
    unfold resolveAvailableSubdomain
    have h := probeFrom_eq_some (subdomainTaken teams) d (teams.length + 1) 0 n (by omega)
      (fun j hj => by simpa using htaken j hj) (by simpa using hfree)
    simpa using h
  have hcand : candidate d n = d ++ decRepr n := by
    cases n with
    | zero => omega
    | succ m => rfl
  rw [hcand] at hres
  refine ⟨hres, ?_⟩
  intro db input p hdb hsub hdom hfp
  rw [← hdb] at hres hfp
  simp only [teamCreator, hdom, Option.none_bind, hfp, hsub, hres, Option.getD_some,
    createTeam]

theorem claim1_witness :
    resolveAvailableSubdomain
      [⟨0, "A", "myteam", "", [], []⟩, ⟨1, "B", "myteam1", "", [], []⟩] "myteam" =
      some "myteam2" := by
  have h := (claim1 [⟨0, "A", "myteam", "", [], []⟩, ⟨1, "B", "myteam1", "", [], []⟩]
    "myteam" 2 (by decide) (by decide) (by decide)).1
  rw [h]
  decide

/-- C2: a desired subdomain held by no team is returned unchanged by the
Domain Availability Checker, and hosted-mode creation gives the new team
exactly that subdomain, with name and avatar verbatim from the input and
`isNewTeam = true`. -/
theorem claim2 (db : DB) (input : TeamInput) (p : AuthProvider)
    (hfree : subdomainTaken db.teams input.subdomain = false)
    (hdom : input.domain = none)
    (hfp : findByProvider db.teams p = none) :
    resolveAvailableSubdomain db.teams input.subdomain = some input.subdomain ∧
    teamCreator .hosted db input p =
      .ok ({ db with
             teams := db.teams ++
               [⟨db.nextId, input.name, input.subdomain, input.avatarUrl, [p], []⟩],
             nextId := db.nextId + 1 },
           ⟨db.nextId, input.name, input.subdomain, input.avatarUrl, [p], []⟩, p, true) := by
  have hres : resolveAvailableSubdomain db.teams input.subdomain = some input.subdomain := by
    unfold resolveAvailableSubdomain
    have h := probeFrom_eq_some (subdomainTaken db.teams) input.subdomain
      (db.teams.length + 1) 0 0 (by omega) (fun j hj => absurd hj (by omega))
      (by simpa using hfree)
    simpa [candidate] using h
  refine ⟨hres, ?_⟩
  simp only [teamCreator, hdom, Option.none_bind, hfp, hres, Option.getD_some, createTeam]

theorem claim2_witness :
    teamCreator .hosted (⟨[], [], 0⟩ : DB) ⟨"Test team", "example", "logo", none⟩
        ⟨"google", "example.com"⟩ =
      .ok (⟨[⟨0, "Test team", "example", "logo", [⟨"google", "example.com"⟩], []⟩], [], 1⟩,
           ⟨0, "Test team", "example", "logo", [⟨"google", "example.com"⟩], []⟩,
           ⟨"google", "example.com"⟩, true) := by
  have h := (claim2 ⟨[], [], 0⟩ ⟨"Test team", "example", "logo", none⟩
    ⟨"google", "example.com"⟩ rfl rfl rfl).2
  rw [h]
  decide

/-- C3: in single-tenant mode the first call with no existing team creates
the team and reports `isNewTeam = true`; with a team present, a call that
would create a distinct team (no domain supplied, no provider match) fails
with `TeamCreationDenied`; and every successful call leaves at most one team
when at most one existed before. -/
theorem claim3 (db : DB) (input : TeamInput) (p : AuthProvider) :
    (db.teams = [] →
      teamCreator .selfHosted db input p =
        .ok ({ db with
               teams := db.teams ++
                 [⟨db.nextId, input.name, input.subdomain, input.avatarUrl, [p], []⟩],
               nextId := db.nextId + 1 },
             ⟨db.nextId, input.name, input.subdomain, input.avatarUrl, [p], []⟩, p, true)) ∧
    (db.teams ≠ [] → input.domain = none → findByProvider db.teams p = none →
      teamCreator .selfHosted db input p = .error .teamCreationDenied) ∧
    (∀ db2 t q b, teamCreator .selfHosted db input p = .ok (db2, t, q, b) →
      db2.teams.length ≤ max db.teams.length 1) := by
  refine ⟨?_, ?_, ?_⟩
  · intro h
    simp only [teamCreator, h, createTeam]
  · intro hne hdom hfp
    cases hteams : db.teams with
    | nil => exact absurd hteams hne
    | cons a l =>
      rw [hteams] at hfp
      simp only [teamCreator, hteams, hdom, hfp]
  · intro db2 t q b h
    cases hteams : db.teams with
    | nil =>
      simp only [teamCreator, hteams, createTeam] at h
      simp only [Except.ok.injEq, Prod.mk.injEq] at h
      obtain ⟨h1, _, _, _⟩ := h
      subst h1
      simp [hteams]
    | cons a l =>
      simp only [teamCreator, hteams] at h
      cases hdom : input.domain with
      | some dom =>
        simp only [hdom] at h
        cases hfd : findByDomain (a :: l) dom with
        | some t0 =>
          simp only [hfd, resolveExisting, updateTeamProviders] at h
          simp only [Except.ok.injEq, Prod.mk.injEq] at h
          obtain ⟨h1, _, _, _⟩ := h
          subst h1
          simp only [List.length_map, hteams]
          exact le_max_left _ _
        | none => simp [hfd] at h
      | none =>
        simp only [hdom] at h
        cases hfp : findByProvider (a :: l) p with
        | some t0 =>
          simp only [hfp, resolveExisting, updateTeamProviders] at h
          simp only [Except.ok.injEq, Prod.mk.injEq] at h
          obtain ⟨h1, _, _, _⟩ := h
          subst h1
          simp only [List.length_map, hteams]
          exact le_max_left _ _
        | none => simp [hfp] at h

theorem claim3_witness :
    teamCreator .selfHosted (⟨[], [], 0⟩ : DB) ⟨"Test team", "example", "logo", none⟩
        ⟨"google", "example.com"⟩ =
      .ok (⟨[⟨0, "Test team", "example", "logo", [⟨"google", "example.com"⟩], []⟩], [], 1⟩,
           ⟨0, "Test team", "example", "logo", [⟨"google", "example.com"⟩], []⟩,
           ⟨"google", "example.com"⟩, true) ∧
    teamCreator .selfHosted
        (⟨[⟨0, "T", "x", "", [⟨"slack", "s1"⟩], []⟩], [], 1⟩ : DB)
        ⟨"Test team", "example", "logo", none⟩ ⟨"google", "example.com"⟩ =
      .error .teamCreationDenied := by
  constructor
  · have h := (claim3 ⟨[], [], 0⟩ ⟨"Test team", "example", "logo", none⟩
      ⟨"google", "example.com"⟩).1 rfl
    rw [h]
    decide
  · exact (claim3 ⟨[⟨0, "T", "x", "", [⟨"slack", "s1"⟩], []⟩], [], 1⟩
      ⟨"Test team", "example", "logo", none⟩ ⟨"google", "example.com"⟩).2.1
      (by decide) rfl (by decide)

/-! ### Claims C4 and C5 -/

theorem upsertUser_teams (db : DB) (tid : Nat) (uin : UserInput) :
    (upsertUser db tid uin).1.teams = db.teams := by
  unfold upsertUser
  cases findUser db.users tid uin.email <;> rfl

/-- Every successful resolution reporting `isNewTeam = false` returns an
existing team with the provider attached, and only updates provider sets. -/
theorem resolveTeam_false_char (mode : Deployment) (db : DB) (input : ProvisionInput)
    (db1 : DB) (t : Team) (q : AuthProvider) (isNew : Bool)
    (h : resolveTeam mode db input = .ok (db1, t, q, isNew)) (hfalse : isNew = false) :
    ∃ t0, t0 ∈ db.teams ∧ t = attachTo q t0.id t0 ∧
      db1.teams = db.teams.map (attachTo q t0.id) := by
  unfold resolveTeam at h
  cases hb : input.teamId.bind (fun i => db.teams.find? (fun t2 => decide (t2.id = i))) with
  | some t0 =>
    simp only [hb, resolveExisting, updateTeamProviders, Except.ok.injEq, Prod.mk.injEq] at h
    obtain ⟨h1, h2, h3, h4⟩ := h
    subst h3
    refine ⟨t0, ?_, h2.symm, by rw [← h1]⟩
    rcases Option.bind_eq_some.mp hb with ⟨i, hi, hfind⟩
    exact List.mem_of_find?_eq_some hfind
  | none =>
    simp only [hb] at h
    cases mode with
    | selfHosted =>
      cases hteams : db.teams with
      | nil =>
        simp only [teamCreator, hteams, createTeam, Except.ok.injEq, Prod.mk.injEq] at h
        obtain ⟨_, _, _, h4⟩ := h
        rw [hfalse] at h4
        cases h4
      | cons a l =>
        simp only [teamCreator, hteams] at h
        cases hdom : input.team.domain with
        | some dom =>
          simp only [hdom] at h
          cases hfd : findByDomain (a :: l) dom with
          | some t0 =>
            simp only [hfd, resolveExisting, updateTeamProviders, Except.ok.injEq,
              Prod.mk.injEq] at h
            obtain ⟨h1, h2, h3, h4⟩ := h
            subst h3
            refine ⟨t0, ?_, h2.symm, ?_⟩
            · exact List.mem_of_find?_eq_some hfd
            · rw [← h1, hteams]
          | none => simp [hfd] at h
        | none =>
          simp only [hdom] at h
          cases hfp : findByProvider (a :: l) input.authenticationProvider with
          | some t0 =>
            simp only [hfp, resolveExisting, updateTeamProviders, Except.ok.injEq,
              Prod.mk.injEq] at h
            obtain ⟨h1, h2, h3, h4⟩ := h
            subst h3
            refine ⟨t0, ?_, h2.symm, ?_⟩
            · exact List.mem_of_find?_eq_some hfp
            · rw [← h1, hteams]
          | none => simp [hfp] at h
    | hosted =>
      cases hbd : input.team.domain.bind (fun dom => findByDomain db.teams dom) with
      | some t0 =>
        simp only [teamCreator, hbd, resolveExisting, updateTeamProviders, Except.ok.injEq,
          Prod.mk.injEq] at h
        obtain ⟨h1, h2, h3, h4⟩ := h
        subst h3
        rcases Option.bind_eq_some.mp hbd with ⟨dom, hdom2, hfd⟩
        exact ⟨t0, List.mem_of_find?_eq_some hfd, h2.symm, by rw [← h1]⟩
      | none =>
        simp only [teamCreator, hbd] at h
        cases hfp : findByProvider db.teams input.authenticationProvider with
        | some t0 =>
          simp only [hfp, resolveExisting, updateTeamProviders, Except.ok.injEq,
            Prod.mk.injEq] at h
          obtain ⟨h1, h2, h3, h4⟩ := h
          subst h3
          exact ⟨t0, List.mem_of_find?_eq_some hfp, h2.symm, by rw [← h1]⟩
        | none =>
          simp only [hfp, createTeam, Except.ok.injEq, Prod.mk.injEq] at h
          obtain ⟨_, _, _, h4⟩ := h
          rw [hfalse] at h4
          cases h4

/-- C4: provisioning with a login domain allow-listed by team `T` resolves
`T` itself — `isNewTeam = false` and `T`'s provider set grown by exactly the
new provider; and in single-tenant mode with an existing team, a login
domain matching no team's TeamDomain set fails with `DomainNotAllowed` — the
operation aborts with an error, so no team and no user is created. -/
theorem claim4 :
    (∀ (mode : Deployment) (db : DB) (input : ProvisionInput) (T : Team) (dom : String),
      input.teamId = none →
      input.team.domain = some dom →
      T ∈ db.teams →
      dom ∈ T.allowedDomains →
      (∀ t2 ∈ db.teams, dom ∈ t2.allowedDomains → t2 = T) →
      input.authenticationProvider ∉ T.providers →
      (∃ db2 u, accountProvisioner mode db input =
        .ok (db2, ⟨{ T with providers := T.providers ++ [input.authenticationProvider] },
                   u, input.authenticationProvider, false⟩)) ∧
      ({ T with providers := T.providers ++ [input.authenticationProvider] } :
          Team).providers.length = T.providers.length + 1) ∧
    (∀ (db : DB) (input : ProvisionInput) (dom : String),
      db.teams ≠ [] →
      input.teamId = none →
      input.team.domain = some dom →
      (∀ t2 ∈ db.teams, dom ∉ t2.allowedDomains) →
      accountProvisioner .selfHosted db input = .error .domainNotAllowed) := by
  constructor
  · intro mode db input T dom hid hdom hT hallow huniq hnotin
    have hfd : findByDomain db.teams dom = some T :=
      findq_eq_some_of_unique _ _ T hT (by simpa using hallow)
        (fun b hb hpb => huniq b hb (by simpa using hpb))
    have hresT : resolveExisting db T input.authenticationProvider =
        (updateTeamProviders db T.id input.authenticationProvider,
         { T with providers := T.providers ++ [input.authenticationProvider] },
         input.authenticationProvider, false) := by
      simp [resolveExisting, attachTo, attachProvider, hnotin]
    have hTC : teamCreator mode db input.team input.authenticationProvider =
        .ok (resolveExisting db T input.authenticationProvider) := by
      cases mode with
      | hosted => simp only [teamCreator, hdom, Option.some_bind, hfd]
      | selfHosted =>
        cases hteams : db.teams with
        | nil => rw [hteams] at hT; cases hT
        | cons a l =>
          rw [hteams] at hfd
          simp only [teamCreator, hteams, hdom, hfd]
    refine ⟨?_, by simp⟩
    unfold accountProvisioner resolveTeam
    rw [hid]
    simp only [Option.none_bind, hTC, hresT]
    exact ⟨_, _, rfl⟩
  · intro db input dom hne hid hdom hnomatch
    have hfd : findByDomain db.teams dom = none := by
      rw [findByDomain, List.find?_eq_none]
      intro x hx
      simpa using hnomatch x hx
    cases hteams : db.teams with
    | nil => exact absurd hteams hne
    | cons a l =>
      rw [hteams] at hfd
      unfold accountProvisioner resolveTeam
      rw [hid]
      simp only [Option.none_bind]
      simp only [teamCreator, hteams, hdom, hfd]

theorem claim4_witness :
    (∃ db2 u, accountProvisioner .selfHosted
        ⟨[⟨0, "T", "x", "av", [⟨"slack", "s1"⟩], ["allowed-domain.com"]⟩], [], 1⟩
        ⟨none, ⟨"Updated name", "example", "av2", some "allowed-domain.com"⟩,
         ⟨"U", "u@allowed-domain.com", "av3"⟩, ⟨"google", "allowed-domain.com"⟩⟩ =
      .ok (db2, ⟨⟨0, "T", "x", "av", [⟨"slack", "s1"⟩, ⟨"google", "allowed-domain.com"⟩],
                  ["allowed-domain.com"]⟩,
                 u, ⟨"google", "allowed-domain.com"⟩, false⟩)) ∧
    accountProvisioner .selfHosted
        ⟨[⟨0, "T", "x", "av", [⟨"slack", "s1"⟩], ["allowed-domain.com"]⟩], [], 1⟩
        ⟨none, ⟨"Updated name", "example", "av2", some "other-domain.com"⟩,
         ⟨"U", "u@other-domain.com", "av3"⟩, ⟨"google", "other-domain.com"⟩⟩ =
      .error .domainNotAllowed := by
  constructor
  · exact (claim4.1 .selfHosted
      ⟨[⟨0, "T", "x", "av", [⟨"slack", "s1"⟩], ["allowed-domain.com"]⟩], [], 1⟩
      ⟨none, ⟨"Updated name", "example", "av2", some "allowed-domain.com"⟩,
       ⟨"U", "u@allowed-domain.com", "av3"⟩, ⟨"google", "allowed-domain.com"⟩⟩
      ⟨0, "T", "x", "av", [⟨"slack", "s1"⟩], ["allowed-domain.com"]⟩
      "allowed-domain.com" rfl rfl (by decide) (by decide) (by decide) (by decide)).1
  · exact claim4.2
      ⟨[⟨0, "T", "x", "av", [⟨"slack", "s1"⟩], ["allowed-domain.com"]⟩], [], 1⟩
      ⟨none, ⟨"Updated name", "example", "av2", some "other-domain.com"⟩,
       ⟨"U", "u@other-domain.com", "av3"⟩, ⟨"google", "other-domain.com"⟩⟩
      "other-domain.com" (by decide) rfl rfl (by decide)

/-- C5: whenever provisioning resolves an existing team (the result reports
`isNewTeam = false`), the returned team keeps the stored id, subdomain and
name — the request's possibly different subdomain and name are ignored — and
no stored team's (id, subdomain, name) triple is changed: the resolver never
overwrites an existing team's subdomain. -/
theorem claim5 (mode : Deployment) (db : DB) (input : ProvisionInput) (db2 : DB)
    (res : ProvisionResult)
    (h : accountProvisioner mode db input = .ok (db2, res))
    (hfalse : res.isNewTeam = false) :
    (∃ t0, t0 ∈ db.teams ∧ res.team.id = t0.id ∧ res.team.subdomain = t0.subdomain ∧
      res.team.name = t0.name) ∧
    db2.teams.map (fun u => (u.id, u.subdomain, u.name)) =
      db.teams.map (fun u => (u.id, u.subdomain, u.name)) := by
  unfold accountProvisioner at h
  cases hr : resolveTeam mode db input with
  | error e => rw [hr] at h; simp at h
  | ok tup =>
    obtain ⟨db1, t, q, isNew⟩ := tup
    cases hu : upsertUser db1 t.id input.user with
    | mk dbU u =>
      simp only [hr, hu, Except.ok.injEq, Prod.mk.injEq] at h
      obtain ⟨h1, h2⟩ := h
      subst h1
      subst h2
      have hchar := resolveTeam_false_char mode db input db1 t q isNew hr
        (by simpa using hfalse)
      obtain ⟨t0, ht0, htEq, hteams⟩ := hchar
      have hUteams : dbU.teams = db1.teams := by
        have hcongr := congrArg (fun x => x.1.teams) hu
        simp only at hcongr
        rw [upsertUser_teams] at hcongr
        exact hcongr.symm
      constructor
      · exact ⟨t0, ht0, by rw [htEq, attachTo_id], by rw [htEq, attachTo_subdomain],
          by rw [htEq, attachTo_name]⟩
      · rw [hUteams, hteams]
        exact map_comp_eq_of _ _ _
          (fun a _ => by simp [attachTo_id, attachTo_subdomain, attachTo_name])

theorem claim5_witness :
    (∃ t0, t0 ∈ ([⟨0, "T", "example", "av", [⟨"google", "example.com"⟩], []⟩] : List Team) ∧
      (⟨0, "T", "example", "av", [⟨"google", "example.com"⟩], []⟩ : Team).id = t0.id ∧
      (⟨0, "T", "example", "av", [⟨"google", "example.com"⟩], []⟩ : Team).subdomain =
        t0.subdomain ∧
      (⟨0, "T", "example", "av", [⟨"google", "example.com"⟩], []⟩ : Team).name = t0.name) ∧
    ([⟨0, "T", "example", "av", [⟨"google", "example.com"⟩], []⟩] : List Team).map
        (fun u => (u.id, u.subdomain, u.name)) =
      ([⟨0, "T", "example", "av", [⟨"google", "example.com"⟩], []⟩] : List Team).map
        (fun u => (u.id, u.subdomain, u.name)) :=
  claim5 .selfHosted
    ⟨[⟨0, "T", "example", "av", [⟨"google", "example.com"⟩], []⟩], [], 1⟩
    ⟨none, ⟨"Updated name", "sub2", "av2", none⟩, ⟨"U", "u@e", "av3"⟩,
     ⟨"google", "example.com"⟩⟩
    ⟨[⟨0, "T", "example", "av", [⟨"google", "example.com"⟩], []⟩], [⟨1, 0, "U", "u@e", "av3"⟩], 2⟩
    ⟨⟨0, "T", "example", "av", [⟨"google", "example.com"⟩], []⟩, ⟨1, 0, "U", "u@e", "av3"⟩,
     ⟨"google", "example.com"⟩, false⟩
    (by decide) rfl

/-! ### Claim C6: idempotence of the Account Provisioner -/

theorem userKey_userUpd (tid : Nat) (uin : UserInput) (v : UserRec) :
    userKey tid uin.email (userUpd tid uin v) = userKey tid uin.email v := by
  unfold userUpd
  split <;> rfl

theorem userUpd_idem (tid : Nat) (uin : UserInput) (v : UserRec) :
    userUpd tid uin (userUpd tid uin v) = userUpd tid uin v := by
  unfold userUpd
  by_cases hcond : v.teamId = tid ∧ v.email = uin.email
  · rw [if_pos hcond,
      if_pos (show ({ v with name := uin.name, avatarUrl := uin.avatarUrl } :
        UserRec).teamId = tid ∧ ({ v with name := uin.name, avatarUrl := uin.avatarUrl } :
        UserRec).email = uin.email from hcond)]
  · rw [if_neg hcond, if_neg hcond]

/-- Re-running the user upsert on its own output is the identity. -/
theorem upsertUser_idem (db : DB) (tid : Nat) (uin : UserInput) (db2 : DB) (u : UserRec)
    (h : upsertUser db tid uin = (db2, u)) :
    upsertUser db2 tid uin = (db2, u) := by
  unfold upsertUser at h ⊢
  cases hf : findUser db.users tid uin.email with
  | some u0 =>
    simp only [hf, Prod.mk.injEq] at h
    obtain ⟨h1, h2⟩ := h
    have hu0key : userKey tid uin.email u0 = true := List.find?_some hf
    have hcond : u0.teamId = tid ∧ u0.email = uin.email := by
      simpa [userKey] using hu0key
    have husers : db2.users = db.users.map (userUpd tid uin) := by rw [← h1]
    have hfind2 : findUser db2.users tid uin.email = some u := by
      unfold findUser
      unfold findUser at hf
      rw [husers, findq_map_of db.users (userUpd tid uin) (userKey tid uin.email)
        (userKey tid uin.email) (fun a _ => userKey_userUpd tid uin a), hf,
        Option.map_some']
      rw [← h2]
      unfold userUpd
      rw [if_pos hcond]
    simp only [hfind2]
    have husers2 : db2.users.map (userUpd tid uin) = db2.users := by
      rw [husers]
      exact map_comp_eq_of db.users (userUpd tid uin) (userUpd tid uin)
        (fun a _ => userUpd_idem tid uin a)
    have hu2 : ({ u with name := uin.name, avatarUrl := uin.avatarUrl } : UserRec) = u := by
      rw [← h2]
    rw [husers2, hu2]
  | none =>
    simp only [hf, Prod.mk.injEq] at h
    obtain ⟨h1, h2⟩ := h
    have husers : db2.users =
        db.users ++ [⟨db.nextId, tid, uin.name, uin.email, uin.avatarUrl⟩] := by
      rw [← h1]
    have hnew : u = ⟨db.nextId, tid, uin.name, uin.email, uin.avatarUrl⟩ := h2.symm
    have hfind2 : findUser db2.users tid uin.email = some u := by
      unfold findUser
      unfold findUser at hf
      rw [husers, findq_append_none _ _ _ hf, hnew,
        List.find?_cons_of_pos _ (by simp [userKey])]
    simp only [hfind2]
    have husers2 : db2.users.map (userUpd tid uin) = db2.users := by
      rw [husers]
      apply map_eq_self_of
      intro a ha
      rcases List.mem_append.mp ha with hold | hnewm
      · have hnotkey := List.find?_eq_none.mp hf a hold
        have hcond : ¬(a.teamId = tid ∧ a.email = uin.email) := by
          intro hcon
          exact hnotkey (by simp [userKey, hcon])
        unfold userUpd
        rw [if_neg hcond]
      · have ha2 : a = ⟨db.nextId, tid, uin.name, uin.email, uin.avatarUrl⟩ := by
          simpa using hnewm
        rw [ha2]
        unfold userUpd
        rw [if_pos (by exact ⟨rfl, rfl⟩)]
    have hu2 : ({ u with name := uin.name, avatarUrl := uin.avatarUrl } : UserRec) = u := by
      rw [hnew]
    rw [husers2, hu2]

/-- After a successful hosted-mode run of the Team Resolver, re-running it
against the updated team table is a no-op: the same team is returned with
`isNewTeam = false`, the state is unchanged, and a stored-id lookup that
previously found nothing now finds either nothing or the returned team. -/
theorem teamCreator_hosted_stable (db : DB) (input : TeamInput) (p : AuthProvider)
    (hpw : db.teams.Pairwise (fun a b => a.id ≠ b.id))
    (hfresh : ∀ u ∈ db.teams, u.id < db.nextId)
    (db1 : DB) (t : Team) (q : AuthProvider) (isNew : Bool)
    (h : teamCreator .hosted db input p = .ok (db1, t, q, isNew))
    (dbx : DB) (hx : dbx.teams = db1.teams) :
    q = p ∧
    p ∈ t.providers ∧
    (∀ u ∈ dbx.teams, u.id = t.id → p ∈ u.providers) ∧
    teamCreator .hosted dbx input p = .ok (dbx, t, p, false) ∧
    (∀ i, db.teams.find? (fun t2 => decide (t2.id = i)) = none →
      dbx.teams.find? (fun t2 => decide (t2.id = i)) = none ∨
      dbx.teams.find? (fun t2 => decide (t2.id = i)) = some t) := by
  cases hbd : input.domain.bind (fun dom => findByDomain db.teams dom) with
  | some t0 =>
    simp only [teamCreator, hbd, resolveExisting, updateTeamProviders, Except.ok.injEq,
      Prod.mk.injEq] at h
    obtain ⟨h1, h2, h3, h4⟩ := h
    subst h3
    have hteams1 : db1.teams = db.teams.map (attachTo p t0.id) := by rw [← h1]
    have hxteams : dbx.teams = db.teams.map (attachTo p t0.id) := by rw [hx, hteams1]
    have htid : t.id = t0.id := by rw [← h2, attachTo_id]
    have hmemT : p ∈ t.providers := by rw [← h2]; exact attachTo_mem p t0.id t0 rfl
    have hall : ∀ u ∈ dbx.teams, u.id = t.id → p ∈ u.providers := by
      intro u hu hid2
      rw [hxteams] at hu
      simp only [List.mem_map] at hu
      obtain ⟨v, hv, rfl⟩ := hu
      have hvid : v.id = t0.id := by rw [← attachTo_id p t0.id v, hid2, htid]
      exact attachTo_mem p t0.id v hvid
    rcases Option.bind_eq_some.mp hbd with ⟨dom, hdom, hfd⟩
    have hfd2 : findByDomain dbx.teams dom = some t := by
      unfold findByDomain
      unfold findByDomain at hfd
      rw [hxteams, findq_map_of db.teams (attachTo p t0.id)
        (fun t2 => decide (dom ∈ t2.allowedDomains))
        (fun t2 => decide (dom ∈ t2.allowedDomains))
        (fun a _ => by simp [attachTo_allowedDomains]), hfd, Option.map_some', h2]
    refine ⟨rfl, hmemT, hall, ?_, ?_⟩
    · simp only [teamCreator, hdom, Option.some_bind, hfd2]
      rw [resolveExisting_noop dbx t p hmemT hall]
    · intro i hfnone
      left
      rw [hxteams, findq_map_of db.teams (attachTo p t0.id)
        (fun t2 => decide (t2.id = i)) (fun t2 => decide (t2.id = i))
        (fun a _ => by simp [attachTo_id]), hfnone]
      rfl
  | none =>
    cases hfp : findByProvider db.teams p with
    | some t0 =>
      simp only [teamCreator, hbd, hfp, resolveExisting, updateTeamProviders,
        Except.ok.injEq, Prod.mk.injEq] at h
      obtain ⟨h1, h2, h3, h4⟩ := h
      subst h3
      have hmem0 : p ∈ t0.providers := findByProvider_mem_providers hfp
      have ht0mem : t0 ∈ db.teams := List.mem_of_find?_eq_some hfp
      have hgid : ∀ u ∈ db.teams, attachTo p t0.id u = u := by
        intro u hu
        apply attachTo_noop
        intro hid2
        have huq : u = t0 := wf_sameId hpw hu ht0mem hid2
        rw [huq]; exact hmem0
      have hmapid : db.teams.map (attachTo p t0.id) = db.teams := map_eq_self_of _ _ hgid
      have hteams1 : db1.teams = db.teams := by rw [← h1]; exact hmapid
      have htt0 : t = t0 := by
        rw [← h2]
        exact attachTo_noop (fun _ => hmem0)
      subst htt0
      have hxteams : dbx.teams = db.teams := by rw [hx, hteams1]
      have hall : ∀ u ∈ dbx.teams, u.id = t.id → p ∈ u.providers := by
        intro u hu hid2
        rw [hxteams] at hu
        have huq : u = t := wf_sameId hpw hu ht0mem hid2
        rw [huq]; exact hmem0
      refine ⟨rfl, hmem0, hall, ?_, ?_⟩
      · have hbdx : input.domain.bind (fun dom => findByDomain dbx.teams dom) = none := by
          rw [hxteams]; exact hbd
        have hfpx : findByProvider dbx.teams p = some t := by
          rw [hxteams]; exact hfp
        simp only [teamCreator, hbdx, hfpx]
        rw [resolveExisting_noop dbx t p hmem0 hall]
      · intro i hfnone
        left
        rw [hxteams]
        exact hfnone
    | none =>
      simp only [teamCreator, hbd, hfp, createTeam, Except.ok.injEq, Prod.mk.injEq] at h
      obtain ⟨h1, h2, h3, h4⟩ := h
      subst h3
      have hteams1 : db1.teams = db.teams ++ [⟨db.nextId, input.name,
          (resolveAvailableSubdomain db.teams input.subdomain).getD input.subdomain,
          input.avatarUrl, [p], []⟩] := by rw [← h1]
      rw [h2] at hteams1
      have hxteams : dbx.teams = db.teams ++ [t] := by rw [hx, hteams1]
      have htid : t.id = db.nextId := by rw [← h2]
      have hmemT : p ∈ t.providers := by rw [← h2]; simp
      have hall : ∀ u ∈ dbx.teams, u.id = t.id → p ∈ u.providers := by
        intro u hu hid2
        rw [hxteams] at hu
        rcases List.mem_append.mp hu with hold | hnewm
        · exfalso
          have := hfresh u hold
          rw [htid] at hid2
          omega
        · have huq : u = t := by simpa using hnewm
          rw [huq]; exact hmemT
      refine ⟨rfl, hmemT, hall, ?_, ?_⟩
      · have hbdx : input.domain.bind (fun dom => findByDomain dbx.teams dom) = none := by
          cases hdom : input.domain with
          | none => rfl
          | some dom =>
            rw [hdom] at hbd
            simp only [Option.some_bind] at hbd ⊢
            unfold findByDomain
            unfold findByDomain at hbd
            rw [hxteams, findq_append_none _ _ _ hbd]
            have hempty : t.allowedDomains = [] := by rw [← h2]
            rw [List.find?_cons_of_neg _ (by simp [hempty]), List.find?_nil]
        have hfpx : findByProvider dbx.teams p = some t := by
          unfold findByProvider
          unfold findByProvider at hfp
          rw [hxteams, findq_append_none _ _ _ hfp,
            List.find?_cons_of_pos _ (by simpa using hmemT)]
        simp only [teamCreator, hbdx, hfpx]
        rw [resolveExisting_noop dbx t p hmemT hall]
      · intro i hfnone
        rw [hxteams, findq_append_none _ _ _ hfnone]
        by_cases hit : t.id = i
        · right
          rw [List.find?_cons_of_pos _ (by simp [hit])]
        · left
          rw [List.find?_cons_of_neg _ (by simp [hit]), List.find?_nil]

/-- After a successful hosted-mode team resolution (including the
context-bound team-id path), re-running the resolution against the updated
state returns the very same team with `isNewTeam = false`, changing
nothing. -/
theorem resolveTeam_hosted_stable (db : DB) (input : ProvisionInput)
    (hpw : db.teams.Pairwise (fun a b => a.id ≠ b.id))
    (hfresh : ∀ u ∈ db.teams, u.id < db.nextId)
    (db1 : DB) (t : Team) (q : AuthProvider) (isNew : Bool)
    (h : resolveTeam .hosted db input = .ok (db1, t, q, isNew))
    (dbx : DB) (hx : dbx.teams = db1.teams) :
    q = input.authenticationProvider ∧
    resolveTeam .hosted dbx input = .ok (dbx, t, input.authenticationProvider, false) := by
  unfold resolveTeam at h ⊢
  cases hb : input.teamId.bind (fun i => db.teams.find? (fun t2 => decide (t2.id = i))) with
  | some t0 =>
    simp only [hb, resolveExisting, updateTeamProviders, Except.ok.injEq, Prod.mk.injEq] at h
    obtain ⟨h1, h2, h3, h4⟩ := h
    subst h3
    have hteams1 : db1.teams =
        db.teams.map (attachTo input.authenticationProvider t0.id) := by rw [← h1]
    have hxteams : dbx.teams =
        db.teams.map (attachTo input.authenticationProvider t0.id) := by rw [hx, hteams1]
    have htid : t.id = t0.id := by rw [← h2, attachTo_id]
    have hmemT : input.authenticationProvider ∈ t.providers := by
      rw [← h2]; exact attachTo_mem _ t0.id t0 rfl
    have hall : ∀ u ∈ dbx.teams, u.id = t.id → input.authenticationProvider ∈ u.providers := by
      intro u hu hid2
      rw [hxteams] at hu
      simp only [List.mem_map] at hu
      obtain ⟨v, hv, rfl⟩ := hu
      have hvid : v.id = t0.id := by
        rw [← attachTo_id input.authenticationProvider t0.id v, hid2, htid]
      exact attachTo_mem _ t0.id v hvid
    rcases Option.bind_eq_some.mp hb with ⟨i, hi, hfind⟩
    have hbx : input.teamId.bind (fun i2 => dbx.teams.find? (fun t2 => decide (t2.id = i2))) =
        some t := by
      rw [hi]
      simp only [Option.some_bind]
      rw [hxteams, findq_map_of db.teams (attachTo input.authenticationProvider t0.id)
        (fun t2 => decide (t2.id = i)) (fun t2 => decide (t2.id = i))
        (fun a _ => by simp [attachTo_id]), hfind, Option.map_some', h2]
    refine ⟨rfl, ?_⟩
    simp only [hbx]
    rw [resolveExisting_noop dbx t input.authenticationProvider hmemT hall]
  | none =>
    simp only [hb] at h
    have hstable := teamCreator_hosted_stable db input.team input.authenticationProvider
      hpw hfresh db1 t q isNew h dbx hx
    obtain ⟨hq, hmemT, hall, hTC, hfind⟩ := hstable
    refine ⟨hq, ?_⟩
    cases hi : input.teamId with
    | none =>
      simp only [Option.none_bind]
      exact hTC
    | some i =>
      rw [hi] at hb
      simp only [Option.some_bind] at hb ⊢
      rcases hfind i hb with hnone | hsome
      · simp only [hnone]
        exact hTC
      · simp only [hsome]
        rw [resolveExisting_noop dbx t input.authenticationProvider hmemT hall]

/-- C6: the Account Provisioner is idempotent in multi-tenant mode — calling
it again on its own output state with the identical input succeeds with
`isNewTeam = false`, the very same team (hence the same team id) and user,
and leaves the state untouched: attaching the same (name, providerId) pair a
second time is a no-op that creates no duplicate provider. -/
theorem claim6 (db : DB) (input : ProvisionInput) (db1 : DB) (r1 : ProvisionResult)
    (hwf : WellFormedDB db)
    (h : accountProvisioner .hosted db input = .ok (db1, r1)) :
    accountProvisioner .hosted db1 input =
      .ok (db1, ⟨r1.team, r1.user, input.authenticationProvider, false⟩) := by
  obtain ⟨hpw, hfresh⟩ := hwf
  unfold accountProvisioner at h
  cases hr : resolveTeam .hosted db input with
  | error e => rw [hr] at h; simp at h
  | ok tup =>
    obtain ⟨dbA, t, q, isNew⟩ := tup
    cases hu : upsertUser dbA t.id input.user with
    | mk dbB u =>
      simp only [hr, hu, Except.ok.injEq, Prod.mk.injEq] at h
      obtain ⟨h1, h2⟩ := h
      subst h1
      subst h2
      have hBteams : dbB.teams = dbA.teams := by
        have hcongr := congrArg (fun x => x.1.teams) hu
        simp only at hcongr
        rw [upsertUser_teams] at hcongr
        exact hcongr.symm
      obtain ⟨hq, hres2⟩ :=
        resolveTeam_hosted_stable db input hpw hfresh dbA t q isNew hr dbB hBteams
      unfold accountProvisioner
      simp only [hres2]
      have hui := upsertUser_idem dbA t.id input.user dbB u hu
      simp only [hui]

theorem claim6_witness :
    accountProvisioner .hosted
        ⟨[⟨0, "Test team", "example", "logo", [⟨"google", "example.com"⟩], []⟩],
         [⟨1, 0, "U", "u@example.com", "av"⟩], 2⟩
        ⟨none, ⟨"Test team", "example", "logo", none⟩, ⟨"U", "u@example.com", "av"⟩,
         ⟨"google", "example.com"⟩⟩ =
      .ok (⟨[⟨0, "Test team", "example", "logo", [⟨"google", "example.com"⟩], []⟩],
            [⟨1, 0, "U", "u@example.com", "av"⟩], 2⟩,
           ⟨⟨0, "Test team", "example", "logo", [⟨"google", "example.com"⟩], []⟩,
            ⟨1, 0, "U", "u@example.com", "av"⟩, ⟨"google", "example.com"⟩, false⟩) :=
  claim6
    ⟨[], [], 0⟩
    ⟨none, ⟨"Test team", "example", "logo", none⟩, ⟨"U", "u@example.com", "av"⟩,
     ⟨"google", "example.com"⟩⟩
    ⟨[⟨0, "Test team", "example", "logo", [⟨"google", "example.com"⟩], []⟩],
     [⟨1, 0, "U", "u@example.com", "av"⟩], 2⟩
    ⟨⟨0, "Test team", "example", "logo", [⟨"google", "example.com"⟩], []⟩,
     ⟨1, 0, "U", "u@example.com", "av"⟩, ⟨"google", "example.com"⟩, true⟩
    ⟨List.Pairwise.nil, by simp⟩
    (by decide)
